import Mathlib

/-!
Shallow embedding of the pogona particle simulator's flow-sampling and
integration core (`src/pogona`), together with theorems checking the
natural-language specification against it.

Conventions of the embedding:
* `numpy` double-precision values are modelled as exact rationals `ℚ`
  (or exact reals `ℝ` where the code takes real fifth and sixth roots);
  rounding error is not modelled.
* Results of calls into the external `scipy.spatial` library
  (`cKDTree.query`, `distance.cdist`) are passed to the embedded
  functions as explicit arguments: the library is an external
  collaborator, not part of the repository.
* Python `float('inf')` values (`np.inf`) are modelled by `Option`,
  with `none` standing for infinity.
-/

/-- Positions, flow vectors and velocities: 3-vectors of rationals. -/
abbrev Vec3 := Fin 3 → ℚ

/-- `np.dot` of two 3-vectors. -/
def dot3 (a b : Vec3) : ℚ :=
  a 0 * b 0 + a 1 * b 1 + a 2 * b 2

/-- A 3x3 matrix applied to a 3-vector (the linear part of a 4x4
homogeneous matrix product). -/
def matVec (M : Matrix (Fin 3) (Fin 3) ℚ) (v : Vec3) : Vec3 :=
  fun i => M i 0 * v 0 + M i 1 * v 1 + M i 2 * v 2

/-- The coordinate transformation as consumed by `VectorFieldManager`
(source: `transformation.py`).  `apply_to_direction` multiplies the
homogeneous 4x4 `direction_matrix` with `np.append(vec, 1.0)` and keeps
the first three components, which equals a 3x3 linear part (`dirMat`)
plus the fourth column of the matrix (`dirShift`; the zero vector for
every transformation built from translation/rotation/scaling, whose
direction matrix is `rotation_matrix @ scaling_matrix`).  Likewise
`apply_inverse_to_point` is the 4x4 `inverse_matrix` applied in
homogeneous coordinates. -/
structure Transformation where
  invMat : Matrix (Fin 3) (Fin 3) ℚ
  invShift : Vec3
  dirMat : Matrix (Fin 3) (Fin 3) ℚ
  dirShift : Vec3

/-- `Transformation.apply_inverse_to_point` (`transformation.py`). -/
def apply_inverse_to_point (t : Transformation) (p : Vec3) : Vec3 :=
  matVec t.invMat p + t.invShift

/-- `Transformation.apply_to_direction` (`transformation.py`). -/
def apply_to_direction (t : Transformation) (v : Vec3) : Vec3 :=
  matVec t.dirMat v + t.dirShift

/-- A bounding face of a boundary cell (source: `face.py`). -/
structure Face where
  position : Vec3
  normalized_normal : Vec3
  distance_to_centre : ℚ

/-- `VectorFieldParser.point_distance_to_plane` (`vector_field_parser.py`):
signed distance of `position` from the plane of `face`, computed as
`np.dot(face.normalized_normal, position - face.position)`. -/
def point_distance_to_plane (position : Vec3) (face : Face) : ℚ :=
  dot3 face.normalized_normal (position - face.position)

/-- The static vector field (cell centres, flow vectors, boundary flags
and boundary faces, all in local mesh coordinates); index `i` of each
list refers to cell `i`. -/
structure VectorField where
  cell_centres : List Vec3
  flow : List Vec3
  at_boundary : List Bool
  boundary_faces : List (List Face)

/-- `VectorFieldManager` pairs a local vector field with a
transformation into the scene's global frame
(`vector_field_manager.py`). -/
structure VectorFieldManager where
  vector_field_local : VectorField
  transformation : Transformation

/-- `VectorFieldManager._make_flow_global`. -/
def make_flow_global (m : VectorFieldManager) (flow_local : Vec3) : Vec3 :=
  apply_to_direction m.transformation flow_local

/-- `VectorFieldManager.is_at_boundary`. -/
def is_at_boundary (m : VectorFieldManager) (cell_id : ℕ) : Bool :=
  m.vector_field_local.at_boundary.getD cell_id false

/-- `pg.Interpolation` (source: `interpolation.py`). -/
inductive Interpolation where
  | NEAREST_NEIGHBOR
  | SHEPARD
  | MODIFIED_SHEPARD
  | MODIFIED_SHEPARD_LINEAR
  | MODIFIED_SHEPARD_SQUARED
  | MODIFIED_SHEPARD_CUBED
  | MODIFIED_SHEPARD_FOURTH
  | NONE
deriving DecidableEq

/-- `VectorFieldManager.get_flow_by_position` (`vector_field_manager.py`).

The spatial queries are performed by the external `scipy.spatial`
library; their results are passed in explicitly:
* `query1` models `kd_tree_global.query(position_global)`: the distance
  to, and index of, the nearest cell centre (in global coordinates);
* `query9` models `kd_tree_global.query(position_global, k=9)`: the
  distances to, and indices of, the nine nearest cell centres, in order
  of increasing distance;
* `cdists` models `scipy.spatial.distance.cdist(position_global,
  cell_centres_global)`: the distance from the query point to every
  cell centre.

`np.isclose(d, 0, atol=1e-10)` is `abs d ≤ 1e-10` (the relative part of
the tolerance vanishes against 0).  The result is `none` exactly where
the source raises `NotImplementedError` (unrecognized policy) or leaves
the rationals (empty `boundary_faces` entry, where the source multiplies
by the initial `minimum_ratio = np.inf`; boundary cells carry a
non-empty face list by the `VectorField` invariant).  The debug-only
warning for implausibly large boundary flow is omitted (log output only). -/
def get_flow_by_position
    (m : VectorFieldManager) (interpolation_type : Interpolation)
    (position_global : Vec3)
    (query1 : ℚ × ℕ) (query9 : List ℚ × List ℕ) (cdists : List ℚ) :
    Option Vec3 :=
  let position_local := apply_inverse_to_point m.transformation position_global
  match interpolation_type with
  | .NEAREST_NEIGHBOR =>
      some (make_flow_global m (m.vector_field_local.flow.getD query1.2 0))
  | .SHEPARD =>
      if |query1.1| ≤ 1 / 10 ^ 10 then
        -- We are at a point where we already know the exact flow.
        -- Note: the source returns the local flow here, without
        -- `_make_flow_global`, unlike every other branch.
        some (m.vector_field_local.flow.getD query1.2 0)
      else
        let weights := cdists.map fun d => 1 / d ^ 4
        let values := m.vector_field_local.flow
        some (make_flow_global m
          ((weights.sum)⁻¹ • (List.zipWith (fun w v => w • v) weights values).sum))
  | .MODIFIED_SHEPARD | .MODIFIED_SHEPARD_LINEAR | .MODIFIED_SHEPARD_SQUARED
  | .MODIFIED_SHEPARD_CUBED | .MODIFIED_SHEPARD_FOURTH =>
      let closest := query9.2.getD 0 0
      if |query9.1.getD 0 0| ≤ 1 / 10 ^ 10 then
        -- We are at a point where we already know the exact flow.
        some (make_flow_global m (m.vector_field_local.flow.getD closest 0))
      else if is_at_boundary m closest then
        -- We are in a boundary cell, switch interpolation method.
        match m.vector_field_local.boundary_faces.getD closest [] with
        | [] => none
        | f :: fs =>
          let faceScale := fun fc : Face =>
            point_distance_to_plane position_local fc / fc.distance_to_centre
          let minScale := (fs.map faceScale).foldl min (faceScale f)
          if minScale < 0 then
            -- We are outside of the mesh, no flow here.
            some (make_flow_global m 0)
          else
            some (make_flow_global m
              (minScale • m.vector_field_local.flow.getD closest 0))
      else
        let power : ℕ :=
          match interpolation_type with
          | .MODIFIED_SHEPARD_LINEAR => 1
          | .MODIFIED_SHEPARD_SQUARED => 2
          | .MODIFIED_SHEPARD_CUBED => 3
          | .MODIFIED_SHEPARD_FOURTH => 4
          | _ => 1
        -- Do actual Inverse Distance Weighting over the 9 neighbours.
        let values := query9.2.map fun i => m.vector_field_local.flow.getD i 0
        match query9.1 with
        | [] => none
        | d0 :: ds =>
          let radius := ds.foldl max d0
          let weights := (d0 :: ds).map fun d => (1 / d - 1 / radius) ^ power
          let normalized_weights := weights.map fun w => w / weights.sum
          some (make_flow_global m
            ((List.zipWith (fun w v => w • v) normalized_weights values).sum))
  | .NONE => none

/-- `pg.Integration` (source: `integration.py`). -/
inductive Integration where
  | EULER
  | RUNGE_KUTTA_4
  | RUNGE_KUTTA_FEHLBERG
  | RUNGE_KUTTA_FEHLBERG_4
  | RUNGE_KUTTA_FEHLBERG_45
deriving DecidableEq

/-- Per-particle state read by `MovementPredictor.predict`
(source: `molecule.py`). -/
structure Molecule where
  position : Vec3
  velocity : Vec3
  object_id : Option ℕ

/-- `EmbeddedRungeKuttaMethod.compute` (source: `movement_predictor.py`),
generic over the Butcher tableau `(A, B0, B1, C)`: for each stage `i`,
`sum_ak = (A[i][:i] * k).sum`, `k_i = func (t_old + C[i] * dt) (y_old +
dt * sum_ak)`, accumulating `s += B[0][i] * k_i` and
`s_low += B[1][i] * k_i`.  Returns `(y_next, y_next_low, error)` with
`y_next = y_old + dt * s`, `y_next_low = y_old + dt * s_low` and
`error = y_next - y_next_low`. -/
def rk_compute (A : List (List ℚ)) (B0 B1 C : List ℚ)
    (func : ℚ → Vec3 → Vec3) (t_old : ℚ) (y_old : Vec3) (dt : ℚ) :
    Vec3 × Vec3 × Vec3 :=
  let r := (List.range C.length).foldl
    (fun (st : List Vec3 × Vec3 × Vec3) i =>
      let sum_ak := (List.zipWith (fun a kj => a • kj)
        ((A.getD i []).take i) st.1).sum
      let ki := func (t_old + C.getD i 0 * dt) (y_old + dt • sum_ak)
      (st.1 ++ [ki], st.2.1 + B0.getD i 0 • ki, st.2.2 + B1.getD i 0 • ki))
    ([], 0, 0)
  (y_old + dt • r.2.1, y_old + dt • r.2.2,
    (y_old + dt • r.2.1) - (y_old + dt • r.2.2))

/-- The `A` matrix of the `RKFehlberg45` tableau
(source: `movement_predictor.py`). -/
def RKF45_A : List (List ℚ) :=
  [[0, 0, 0, 0, 0, 0],
   [1/4, 0, 0, 0, 0, 0],
   [3/32, 9/32, 0, 0, 0, 0],
   [1932/2197, -7200/2197, 7296/2197, 0, 0, 0],
   [439/216, -8, 3680/513, -845/4104, 0, 0],
   [-8/27, 2, -3544/2565, 1859/4104, -11/40, 0]]

/-- First row of `RKFehlberg45.B` (higher-order weights). -/
def RKF45_B0 : List ℚ := [16/135, 0, 6656/12825, 28561/56430, -9/50, 2/55]

/-- Second row of `RKFehlberg45.B` (lower-order weights). -/
def RKF45_B1 : List ℚ := [25/216, 0, 1408/2565, 2197/4104, -1/5, 0]

/-- `RKFehlberg45.C` (stage times). -/
def RKF45_C : List ℚ := [0, 1/4, 3/8, 12/13, 1, 1/2]

/-- `RKFehlberg45.order` (source: `movement_predictor.py`): the order of
the higher-order method, used as `rkf_order` by the adaptive loop. -/
def RKF45_order : ℕ := 5

/-- `MovementPredictor.predict` (source: `movement_predictor.py`),
returning the new global position and the error.  The scene flow lookup
`scene_manager.get_flow_by_position(kernel, y, object_id, t)` is passed
in as `flow : t → y → velocity` (the molecule's `object_id` being fixed
during one call).  The source reduces the RKF error vector to a scalar
via `np.linalg.norm`; here the error vector itself is returned (the
scalar is zero exactly when the vector is).  For `EULER`,
`RUNGE_KUTTA_4` and molecules without an `object_id` the source leaves
its scalar `error = 0`, modelled as the zero vector.  Mirrors that the
stage times of `RUNGE_KUTTA_4` all use `sim_time` (no `c_i * dt` offset)
and that `molecule.velocity * delta_time` is added unconditionally after
the flow-driven displacement. -/
def predict (method : Integration) (flow : ℚ → Vec3 → Vec3)
    (molecule : Molecule) (sim_time delta_time : ℚ) : Vec3 × Vec3 :=
  let base : Vec3 × Vec3 :=
    match molecule.object_id with
    | none => (molecule.position, 0)
    | some _ =>
      match method with
      | .EULER =>
        let k1 := delta_time • flow sim_time molecule.position
        (molecule.position + k1, 0)
      | .RUNGE_KUTTA_4 =>
        let k1 := delta_time • flow sim_time molecule.position
        let k2 := delta_time • flow sim_time
          (molecule.position + (1/2 : ℚ) • k1)
        let k3 := delta_time • flow sim_time
          (molecule.position + (1/2 : ℚ) • k2)
        let k4 := delta_time • flow sim_time (molecule.position + k3)
        (molecule.position + (1/6 : ℚ) • k1 + (1/3 : ℚ) • k2
          + (1/3 : ℚ) • k3 + (1/6 : ℚ) • k4, 0)
      | .RUNGE_KUTTA_FEHLBERG | .RUNGE_KUTTA_FEHLBERG_4
      | .RUNGE_KUTTA_FEHLBERG_45 =>
        let r := rk_compute RKF45_A RKF45_B0 RKF45_B1 RKF45_C
          flow sim_time molecule.position delta_time
        (if method = .RUNGE_KUTTA_FEHLBERG_4 then r.2.1 else r.1, r.2.2)
  (base.1 + delta_time • molecule.velocity, base.2)

/-- `pg.util.is_power_of_two` (source: `util.py`). -/
def is_power_of_two (n : ℕ) : Bool :=
  n ≠ 0 && n &&& (n - 1) == 0

/-- Fuel-driven worker for `bit_length`. -/
def bitLengthGo : ℕ → ℕ → ℕ
  | 0, _ => 0
  | fuel + 1, n => if n = 0 then 0 else bitLengthGo fuel (n / 2) + 1

/-- Python `int.bit_length` for naturals (number of binary digits;
`n` halves each round, so `n` rounds of fuel always suffice). -/
def bit_length (n : ℕ) : ℕ :=
  bitLengthGo n n

/-- Fuel-driven worker for `grouper`. -/
def grouperGo (n : ℕ) : ℕ → List Char → List (List Char)
  | 0, _ => []
  | _, [] => []
  | fuel + 1, c :: cs =>
    ((c :: cs).take n ++ List.replicate (n - (c :: cs).length) '0')
      :: grouperGo n fuel ((c :: cs).drop n)

/-- `pg.util.grouper` with `fillvalue='0'` (source: `util.py`): chunk a
character sequence into groups of `n`, padding the last group with
`'0'`. -/
def grouper (n : ℕ) (l : List Char) : List (List Char) :=
  grouperGo n l.length l

/-- Python `int(s, base=2)` on a string of `'0'`/`'1'` characters. -/
def bitsToNat (l : List Char) : ℕ :=
  l.foldl (fun acc c => 2 * acc + (if c = '1' then 1 else 0)) 0

/-- `ModulationPPM.bitstream_to_ppm` (source: `modulation_ppm.py`):
`bits_per_symbol = chips_per_symbol.bit_length() - 1`; each group of
`bits_per_symbol` bits (`'0'`-padded) with value `symbol_int` becomes
`symbol_int` zeros, a one, and `chips_per_symbol - symbol_int - 1`
zeros.  The source additionally asserts
`is_power_of_two chips_per_symbol`. -/
def bitstream_to_ppm (bitstream : List Char) (chips_per_symbol : ℕ) :
    List Char :=
  (grouper (bit_length chips_per_symbol - 1) bitstream).foldl
    (fun result bits_tuple =>
      let symbol_int := bitsToNat bits_tuple
      result ++ (List.replicate symbol_int '0' ++ ['1']
        ++ List.replicate (chips_per_symbol - symbol_int - 1) '0'))
    []

/-- A double-precision component that may be NaN (for
`SceneManager.get_flow_by_position`, whose NaN check is the one place
the embedding must distinguish NaN from numbers). -/
inductive PFloat where
  | nan
  | val (q : ℚ)
deriving DecidableEq

/-- `np.isnan` on one component. -/
def PFloat.isNaN : PFloat → Bool
  | .nan => true
  | .val _ => false

/-- A flow vector whose components may be NaN. -/
structure PVec3 where
  x : PFloat
  y : PFloat
  z : PFloat
deriving DecidableEq

/-- `True in np.isnan(flow)`: some component of `flow` is NaN. -/
def hasNaN (v : PVec3) : Bool :=
  v.x.isNaN || v.y.isNaN || v.z.isNaN

/-- `SceneManager.get_flow_by_position` (source: `scene_manager.py`),
after the addressed object has produced `flow`: raise `AssertionError`
(modelled as `Except.error`) when any component of `flow` is NaN, and
return `flow` unchanged otherwise. -/
def scene_manager_get_flow_by_position (flow : PVec3) :
    Except String PVec3 :=
  if hasNaN flow then
    Except.error "Flow is NaN for a molecule."
  else
    Except.ok flow

open Classical

/-- Configuration read by `SimulationKernel.simulation_loop_adaptive_rkf`
(source: `simulation_kernel.py`): `adaptive_time_safety_factor`,
`adaptive_time_max_error_threshold`, `base_delta_time`,
`adaptive_time_corrections_limit`, and `rkf_order` (the
`embedded_integrator.order`).  The threshold is a finite real: the
kernel's argument check rejects adaptive stepping with
`adaptive_time_max_error_threshold == np.inf`.  The adaptive controller
is modelled over exact reals because its step-size formula takes real
fifth and sixth roots. -/
structure AdaptiveParams where
  safety_factor : ℝ
  max_error_threshold : ℝ
  base_delta_time : ℝ
  corrections_limit : ℕ
  rkf_order : ℕ

/-- One attempt of the correction loop in `_update_molecule`: the
molecule's `delta_time_opt` before the attempt, the `_delta_time`
actually tried, the scalar error reported by the predictor, the
`delta_time_opt` stored after the attempt, and the attempted
position. -/
structure Attempt (α : Type) where
  dtOptBefore : Option ℝ
  dtUsed : ℝ
  error : ℝ
  dtOptAfter : Option ℝ
  pos : α

/-- Python `min(a, b, c)` where `a` may be `np.inf` (`none`). -/
noncomputable def pyMin3 (a : Option ℝ) (b c : ℝ) : ℝ :=
  match a with
  | none => min b c
  | some x => min x (min b c)

/-- Loop state of `_update_molecule` (source: `simulation_kernel.py`):
`_error` (initially `np.inf`, hence `Option` with `none` for infinity),
`_num_corrections` (initially `-1`), `_delta_time` (initially `np.inf`),
the molecule's `delta_time_opt` and position, and the trace of attempts
made so far (the source keeps the errors in `_dbg_errors`). -/
structure CorrState (α : Type) where
  errState : Option ℝ
  num_corrections : ℤ
  dtState : Option ℝ
  delta_time_opt : Option ℝ
  pos : α
  trace : List (Attempt α)

/-- `_error > threshold` where `_error` may be `np.inf` (`none`) and the
threshold is finite. -/
def errAbove (e : Option ℝ) (threshold : ℝ) : Prop :=
  match e with
  | none => True
  | some x => threshold < x

/-- Guard of the `while` loop in `_update_molecule`:
`_error > adaptive_time_max_error_threshold and _num_corrections <=
adaptive_time_corrections_limit`. -/
def corrGuard (P : AdaptiveParams) {α : Type} (s : CorrState α) : Prop :=
  errAbove s.errState P.max_error_threshold ∧
    s.num_corrections ≤ (P.corrections_limit : ℤ)

/-- One iteration of the `while` loop in `_update_molecule`.
`predict_at dt` models `self._movement_predictor.predict(self,
_molecule, _sub_sim_time, delta_time=dt, update_molecule=False)`,
returning the attempted position and the scalar error; molecule and
sub-step time are fixed during the loop, so the predictor is a function
of the step size alone.  Comparisons on reals below use classical
decidability (the source compares floating-point numbers).  `_delta_time = min(_molecule.delta_time_opt,
self.base_delta_time, abs(self.base_delta_time - (_sub_sim_time -
self.sim_time)))` with `elapsed = _sub_sim_time - self.sim_time`;
the exponent is `1/(rkf_order+1)` if `_error >= threshold` else
`1/rkf_order`; `delta_time_opt` becomes `np.inf` if the error is zero
and otherwise `safety_factor * _delta_time * (threshold / _error) **
exponent` (a real power). -/
noncomputable def correctionStep (P : AdaptiveParams) {α : Type}
    (predict_at : ℝ → α × ℝ) (elapsed : ℝ) (s : CorrState α) :
    CorrState α :=
  let dtv := pyMin3 s.delta_time_opt P.base_delta_time
    |P.base_delta_time - elapsed|
  let pe := predict_at dtv
  let exponent : ℝ :=
    if P.max_error_threshold ≤ pe.2 then 1 / ((P.rkf_order : ℝ) + 1)
    else 1 / (P.rkf_order : ℝ)
  let dtOptNext : Option ℝ :=
    if pe.2 = 0 then none
    else some (P.safety_factor * dtv * (P.max_error_threshold / pe.2) ^ exponent)
  { errState := some pe.2
    num_corrections := s.num_corrections + 1
    dtState := some dtv
    delta_time_opt := dtOptNext
    pos := pe.1
    trace := s.trace ++ [⟨s.delta_time_opt, dtv, pe.2, dtOptNext, pe.1⟩] }

/-- The `while` loop of `_update_molecule`, driven by recursion fuel.
Each iteration increments `_num_corrections` (initially `-1`) and the
guard requires it to be at most the corrections limit, so the source
loop runs its body at most `corrections_limit + 2` times and evaluates
its guard at most `corrections_limit + 3` times; with fuel
`corrections_limit + 3` the returned flag is always `true` (the guard
became false), i.e. the fuel never truncates the loop. -/
noncomputable def correctionLoop (P : AdaptiveParams) {α : Type}
    (predict_at : ℝ → α × ℝ) (elapsed : ℝ) :
    ℕ → CorrState α → CorrState α × Bool
  | 0, s => (s, false)
  | fuel + 1, s =>
    if corrGuard P s then
      correctionLoop P predict_at elapsed fuel
        (correctionStep P predict_at elapsed s)
    else (s, true)

/-- What `_update_molecule` leaves behind: the position committed to the
molecule by the single `_molecule.update(...)` call after the loop, the
most recently used step size, the number of corrections, the stored
`delta_time_opt`, the trace of attempts, whether the loop exited through
its guard, and whether the over-limit warning was logged
(`_num_corrections > self.adaptive_time_corrections_limit`). -/
structure UpdateResult (α : Type) where
  committedPos : α
  dtUsed : Option ℝ
  num_corrections : ℤ
  delta_time_opt : Option ℝ
  trace : List (Attempt α)
  completed : Bool
  warned : Bool

/-- `_update_molecule` (source: `simulation_kernel.py`, inside
`simulation_loop_adaptive_rkf`): run the correction loop from `_error =
np.inf`, `_num_corrections = -1`, `_delta_time = np.inf` and the
molecule's stored `delta_time_opt`, then commit the final attempted
position (exactly one `_molecule.update` call, regardless of how the
loop exited) and report step size and correction count. -/
noncomputable def update_molecule (P : AdaptiveParams) {α : Type}
    (predict_at : ℝ → α × ℝ) (elapsed : ℝ) (pos0 : α)
    (dtOpt0 : Option ℝ) : UpdateResult α :=
  let r := correctionLoop P predict_at elapsed (P.corrections_limit + 3)
    { errState := none, num_corrections := -1, dtState := none,
      delta_time_opt := dtOpt0, pos := pos0, trace := [] }
  { committedPos := r.1.pos
    dtUsed := r.1.dtState
    num_corrections := r.1.num_corrections
    delta_time_opt := r.1.delta_time_opt
    trace := r.1.trace
    completed := r.2
    warned := decide ((P.corrections_limit : ℤ) < r.1.num_corrections) }

/-- `np.isclose(a, b, rtol=1e-10, atol=1e-15)`:
`abs (a - b) <= atol + rtol * abs b`. -/
def iscloseProp (a b : ℝ) : Prop :=
  |a - b| ≤ 1 / 10 ^ 15 + 1 / 10 ^ 10 * |b|

/-- Guard of the sub-stepping loop in
`_advance_molecule_to_next_base_step`: `_sub_sim_time < _sim_time_next
and not np.isclose(_sub_sim_time, _sim_time_next, rtol=1e-10,
atol=1e-15)`, with `_sim_time_next = sim_time + base_delta_time`. -/
def advGuard (sim_time base : ℝ) (sub : ℝ) : Prop :=
  sub < sim_time + base ∧ ¬ iscloseProp sub (sim_time + base)

/-- State of the sub-stepping loop: `_sub_sim_time`, the molecule's
`delta_time_opt` and position, the step sizes committed so far, and
`_num_steps`. -/
structure AdvState (α : Type) where
  sub_sim_time : ℝ
  delta_time_opt : Option ℝ
  pos : α
  committed : List ℝ
  num_steps : ℕ

/-- The sub-stepping `while` loop of
`_advance_molecule_to_next_base_step` (source: `simulation_kernel.py`),
driven by recursion fuel (the source loop need not terminate for
adversarial predictors, so the embedding runs a caller-chosen number of
iterations; the returned flag is `true` exactly when the loop exited
through its guard within the given fuel).  `pred pos sub dt` models the
movement predictor for the molecule at position `pos`, sub-step time
`sub` and step size `dt`.  The first correction iteration inside
`update_molecule` always runs (`_error = np.inf` exceeds the finite
threshold), so its `dtUsed` is always `some`; `getD 0` only satisfies
the type checker. -/
noncomputable def advanceLoop (P : AdaptiveParams) {α : Type}
    (pred : α → ℝ → ℝ → α × ℝ) (sim_time : ℝ) :
    ℕ → AdvState α → AdvState α × Bool
  | 0, s => (s, false)
  | fuel + 1, s =>
    if advGuard sim_time P.base_delta_time s.sub_sim_time then
      let r := update_molecule P (pred s.pos s.sub_sim_time)
        (s.sub_sim_time - sim_time) s.pos s.delta_time_opt
      let dtv := r.dtUsed.getD 0
      advanceLoop P pred sim_time fuel
        { sub_sim_time := s.sub_sim_time + dtv
          delta_time_opt := r.delta_time_opt
          pos := r.committedPos
          committed := s.committed ++ [dtv]
          num_steps := s.num_steps + 1 }
    else (s, true)

/-- `_advance_molecule_to_next_base_step`: start the sub-stepping loop
at `_sub_sim_time = self.sim_time` with the molecule's current state. -/
noncomputable def advance_molecule_to_next_base_step (P : AdaptiveParams)
    {α : Type} (pred : α → ℝ → ℝ → α × ℝ) (sim_time : ℝ) (fuel : ℕ)
    (pos0 : α) (dtOpt0 : Option ℝ) : AdvState α × Bool :=
  advanceLoop P pred sim_time fuel
    { sub_sim_time := sim_time, delta_time_opt := dtOpt0, pos := pos0,
      committed := [], num_steps := 0 }

/-- The step-size update as the specification words it (for comparison
with `correctionStep`): `dt_opt = safety_factor * dt_used * (threshold /
error) ^ exponent`, where the exponent is `1/(order+1)` if the error is
still over the threshold and `1/order` once the step is accepted, and
`dt_opt = np.inf` (`none`) if the error is exactly zero. -/
noncomputable def delta_time_opt_spec (P : AdaptiveParams) (dt e : ℝ) :
    Option ℝ :=
  if e = 0 then none
  else some (P.safety_factor * dt * (P.max_error_threshold / e) ^
    (if P.max_error_threshold < e then 1 / ((P.rkf_order : ℝ) + 1)
     else 1 / (P.rkf_order : ℝ)))

/-- A one-cell vector field: cell centre at the origin with stored flow
`(1, 0, 0)`, not a boundary cell. -/
def oneCellField : VectorField :=
  { cell_centres := [![0, 0, 0]]
    flow := [![1, 0, 0]]
    at_boundary := [false]
    boundary_faces := [[]] }

/-- The transformation scaling all axes by `2` (no translation, no
rotation): its direction matrix is `2 * I` and its inverse matrix is
`(1/2) * I`. -/
def doublingTransformation : Transformation :=
  { invMat := !![1/2, 0, 0; 0, 1/2, 0; 0, 0, 1/2]
    invShift := 0
    dirMat := !![2, 0, 0; 0, 2, 0; 0, 0, 2]
    dirShift := 0 }

/-- The one-cell field under the doubling transformation. -/
def oneCellManager : VectorFieldManager :=
  { vector_field_local := oneCellField
    transformation := doublingTransformation }

/-- A one-cell vector field whose single cell is a boundary cell with
one bounding face (used to evaluate the boundary-ratio policy at a
concrete input). -/
def oneBoundaryCellField : VectorField :=
  { cell_centres := [![0, 0, 0]]
    flow := [![1, 0, 0]]
    at_boundary := [true]
    boundary_faces :=
      [[{ position := ![1, 0, 0]
          normalized_normal := ![-1, 0, 0]
          distance_to_centre := 1 }]] }

/-- The identity transformation. -/
def identityTransformation : Transformation :=
  { invMat := 1, invShift := 0, dirMat := 1, dirShift := 0 }

/-- The boundary-cell field under the identity transformation. -/
def oneBoundaryCellManager : VectorFieldManager :=
  { vector_field_local := oneBoundaryCellField
    transformation := identityTransformation }

/-! Helper lemmas about `List.foldl max` and `List.foldl min`, which is
how the source computes `np.amax` and the running `minimum_ratio`. -/

theorem le_foldl_max (l : List ℚ) (a : ℚ) : a ≤ l.foldl max a := by
  induction l generalizing a with
  | nil => exact le_refl a
  | cons b t ih => exact le_trans (le_max_left a b) (ih (max a b))

theorem mem_le_foldl_max (l : List ℚ) (a x : ℚ) (hx : x ∈ l) :
    x ≤ l.foldl max a := by
  induction l generalizing a with
  | nil => cases hx
  | cons b t ih =>
    rcases List.mem_cons.mp hx with h | h
    · subst h
      exact le_trans (le_max_right a x) (le_foldl_max t (max a x))
    · exact ih (max a b) h

theorem foldl_max_mem (l : List ℚ) (a : ℚ) :
    l.foldl max a = a ∨ l.foldl max a ∈ l := by
  induction l generalizing a with
  | nil => exact Or.inl rfl
  | cons b t ih =>
    rcases ih (max a b) with h | h
    · rw [List.foldl_cons, h]
      rcases max_choice a b with he | he
      · exact Or.inl he
      · exact Or.inr (by rw [he]; exact List.mem_cons_self b t)
    · rw [List.foldl_cons]
      exact Or.inr (List.mem_cons_of_mem b h)

theorem foldl_min_le (l : List ℚ) (a : ℚ) : l.foldl min a ≤ a := by
  induction l generalizing a with
  | nil => exact le_refl a
  | cons b t ih => exact le_trans (ih (min a b)) (min_le_left a b)

theorem foldl_min_le_mem (l : List ℚ) (a x : ℚ) (hx : x ∈ l) :
    l.foldl min a ≤ x := by
  induction l generalizing a with
  | nil => cases hx
  | cons b t ih =>
    rcases List.mem_cons.mp hx with h | h
    · subst h
      exact le_trans (foldl_min_le t (min a x)) (min_le_right a x)
    · exact ih (min a b) h

theorem foldl_min_mem (l : List ℚ) (a : ℚ) :
    l.foldl min a = a ∨ l.foldl min a ∈ l := by
  induction l generalizing a with
  | nil => exact Or.inl rfl
  | cons b t ih =>
    rcases ih (min a b) with h | h
    · rw [List.foldl_cons, h]
      rcases min_choice a b with he | he
      · exact Or.inl he
      · exact Or.inr (by rw [he]; exact List.mem_cons_self b t)
    · rw [List.foldl_cons]
      exact Or.inr (List.mem_cons_of_mem b h)

/-- C9: `ModulationPPM.bitstream_to_ppm` applied to the bit string
"101101" returns "011001011001" for 2 chips per symbol, "001000010100"
for 4 chips per symbol, and "0000010000000100" for 8 chips per
symbol. -/
theorem bitstream_to_ppm_101101 :
    bitstream_to_ppm "101101".data 2 = "011001011001".data ∧
    bitstream_to_ppm "101101".data 4 = "001000010100".data ∧
    bitstream_to_ppm "101101".data 8 = "0000010000000100".data := by
  refine ⟨?_, ?_, ?_⟩ <;> decide

/-- C7: `SceneManager.get_flow_by_position` raises an unrecoverable
error exactly when the flow vector obtained from the addressed object
has a NaN component; otherwise the flow vector is returned to the caller
unchanged. -/
theorem scene_flow_nan_is_fatal (flow : PVec3) :
    ((∃ msg, scene_manager_get_flow_by_position flow = Except.error msg) ↔
      hasNaN flow = true) ∧
    (hasNaN flow = false →
      scene_manager_get_flow_by_position flow = Except.ok flow) := by
  cases h : hasNaN flow <;>
    simp [scene_manager_get_flow_by_position, h]

/-- Witness for `scene_flow_nan_is_fatal` at a NaN-free flow vector. -/
theorem scene_flow_nan_is_fatal_witness :
    scene_manager_get_flow_by_position ⟨.val 1, .val 2, .val 3⟩
      = Except.ok ⟨.val 1, .val 2, .val 3⟩ :=
  (scene_flow_nan_is_fatal ⟨.val 1, .val 2, .val 3⟩).2 rfl

/-- C1 (evaluating the code at the failing input): for the one-cell
field under a doubling transformation, querying exactly at the cell
centre (nearest distance `0 < 1e-10`) returns the direction-transformed
flow `(2, 0, 0)` under `NEAREST_NEIGHBOR` and `MODIFIED_SHEPARD`, but
the raw local flow `(1, 0, 0)` — with no `_make_flow_global` — under
`SHEPARD`, contradicting the policy-independence stated by the
specification. -/
theorem shepard_centre_flow_skips_direction_transform :
    get_flow_by_position oneCellManager .SHEPARD ![0, 0, 0]
        (0, 0) ([0], [0]) [] = some ![1, 0, 0] ∧
    get_flow_by_position oneCellManager .NEAREST_NEIGHBOR ![0, 0, 0]
        (0, 0) ([0], [0]) [] = some ![2, 0, 0] ∧
    get_flow_by_position oneCellManager .MODIFIED_SHEPARD ![0, 0, 0]
        (0, 0) ([0], [0]) [] = some ![2, 0, 0] ∧
    make_flow_global oneCellManager ![1, 0, 0] = ![2, 0, 0] ∧
    some (![1, 0, 0] : Vec3) ≠ some (![2, 0, 0] : Vec3) := by
  have hmfg : make_flow_global oneCellManager ![1, 0, 0] = ![2, 0, 0] := by
    funext i
    fin_cases i <;>
      norm_num [make_flow_global, apply_to_direction, matVec, oneCellManager,
        doublingTransformation]
  refine ⟨?_, ?_, ?_, hmfg, ?_⟩
  · norm_num [get_flow_by_position, oneCellManager, oneCellField]
  · norm_num [get_flow_by_position]
    exact hmfg
  · norm_num [get_flow_by_position, oneCellManager, oneCellField]
    exact hmfg
  · intro h
    have h2 := congrFun (Option.some.inj h) 0
    norm_num at h2

/-- C8: for a constant flow function, `EmbeddedRungeKuttaMethod.compute`
with the `RKFehlberg45` tableau returns the error zero: both weight rows
sum to `1`, so high- and low-order solutions both equal
`y_old + dt * c` and coincide. -/
theorem rkf45_constant_flow_zero_error (c : Vec3) (t0 : ℚ) (y0 : Vec3)
    (dt : ℚ) :
    rk_compute RKF45_A RKF45_B0 RKF45_B1 RKF45_C (fun _ _ => c) t0 y0 dt
      = (y0 + dt • c, y0 + dt • c, 0) ∧
    RKF45_B0.sum = 1 ∧ RKF45_B1.sum = 1 := by
  have hb0 : RKF45_B0.sum = 1 := by norm_num [RKF45_B0]
  have hb1 : RKF45_B1.sum = 1 := by norm_num [RKF45_B1]
  refine ⟨?_, hb0, hb1⟩
  have hrange : List.range RKF45_C.length = [0, 1, 2, 3, 4, 5] := by decide
  rw [rk_compute, hrange]
  simp only [List.foldl_cons, List.foldl_nil]
  norm_num [RKF45_B0, RKF45_B1]
  refine ⟨?_, ?_, ?_⟩ <;> funext i <;>
    simp only [Pi.sub_apply, Pi.add_apply, Pi.neg_apply, Pi.smul_apply,
      smul_eq_mul, Pi.zero_apply] <;> ring

/-- C5: `MovementPredictor.predict` adds `molecule.velocity *
delta_time` unconditionally for every integration method (the new
position depends on the velocity only through that additive term); for a
molecule without an `object_id` the flow term is skipped, the error
stays zero, and the new position is exactly `position + velocity *
delta_time`; and under `EULER` or `RUNGE_KUTTA_4` with an identically
zero flow field the displacement is exactly `velocity * delta_time`. -/
theorem predict_velocity_superposition :
    (∀ (method : Integration) (flow : ℚ → Vec3 → Vec3) (m : Molecule)
        (t dt : ℚ), m.object_id = none →
      predict method flow m t dt = (m.position + dt • m.velocity, 0)) ∧
    (∀ (method : Integration) (flow : ℚ → Vec3 → Vec3) (m : Molecule)
        (t dt : ℚ),
      (predict method flow m t dt).1
        = (predict method flow { m with velocity := 0 } t dt).1
          + dt • m.velocity) ∧
    (∀ (flow : ℚ → Vec3 → Vec3) (m : Molecule) (t dt : ℚ),
      (∀ s p, flow s p = 0) →
      (predict .EULER flow m t dt).1 = m.position + dt • m.velocity ∧
      (predict .RUNGE_KUTTA_4 flow m t dt).1
        = m.position + dt • m.velocity) := by
  refine ⟨?_, ?_, ?_⟩
  · intro method flow m t dt h
    simp [predict, h]
  · intro method flow m t dt
    cases hid : m.object_id with
    | none => simp [predict, hid]
    | some oid => cases method <;> simp [predict, hid]
  · intro flow m t dt h
    cases hid : m.object_id with
    | none => constructor <;> simp [predict, hid]
    | some oid => constructor <;> simp [predict, hid, h]

/-- Witness for `predict_velocity_superposition`, discharging its
hypotheses at a concrete molecule and the zero flow field. -/
theorem predict_velocity_superposition_witness :
    predict .EULER (fun _ _ => 0)
        { position := ![1, 2, 3], velocity := ![1, 0, 0],
          object_id := none } 0 1
      = (![1, 2, 3] + (1 : ℚ) • ![1, 0, 0], 0) ∧
    (predict .RUNGE_KUTTA_4 (fun _ _ => 0)
        { position := ![1, 2, 3], velocity := ![1, 0, 0],
          object_id := some 0 } 0 1).1
      = ![1, 2, 3] + (1 : ℚ) • ![1, 0, 0] :=
  ⟨predict_velocity_superposition.1 .EULER (fun _ _ => 0) _ 0 1 rfl,
   (predict_velocity_superposition.2.2 (fun _ _ => 0) _ 0 1
     (fun _ _ => rfl)).2⟩

/-- C4: under every MODIFIED_SHEPARD-family policy, when the nearest of
the nine neighbour cells is farther than `1e-10` and flagged as a
boundary cell, the returned flow is determined by the minimum `r`, over
the cell's bounding faces, of the signed distance from the local query
point to the face plane divided by the face's precomputed
centre-to-face distance: the direction-transformed zero vector if
`r < 0`, and otherwise the cell's stored flow scaled by `r` and
direction-transformed. -/
theorem modified_shepard_boundary_ratio
    (m : VectorFieldManager) (itype : Interpolation)
    (hit : itype = .MODIFIED_SHEPARD ∨ itype = .MODIFIED_SHEPARD_LINEAR ∨
      itype = .MODIFIED_SHEPARD_SQUARED ∨ itype = .MODIFIED_SHEPARD_CUBED ∨
      itype = .MODIFIED_SHEPARD_FOURTH)
    (pos : Vec3) (query1 : ℚ × ℕ) (dists : List ℚ) (ids : List ℕ)
    (cdists : List ℚ)
    (hnear : 1 / 10 ^ 10 < dists.getD 0 0)
    (hbdy : is_at_boundary m (ids.getD 0 0) = true)
    (f : Face) (fs : List Face)
    (hfaces : m.vector_field_local.boundary_faces.getD (ids.getD 0 0) []
      = f :: fs) :
    ∃ r : ℚ,
      r ∈ (f :: fs).map (fun fc =>
        point_distance_to_plane
          (apply_inverse_to_point m.transformation pos) fc
          / fc.distance_to_centre) ∧
      (∀ s ∈ (f :: fs).map (fun fc =>
        point_distance_to_plane
          (apply_inverse_to_point m.transformation pos) fc
          / fc.distance_to_centre), r ≤ s) ∧
      get_flow_by_position m itype pos query1 (dists, ids) cdists
        = some (if r < 0 then make_flow_global m 0
            else make_flow_global m
              (r • m.vector_field_local.flow.getD (ids.getD 0 0) 0)) := by
  have hno : ¬ (|dists.getD 0 0| ≤ 1 / 10 ^ 10) := by
    rw [not_le]
    exact lt_of_lt_of_le hnear (le_abs_self _)
  set g := fun fc : Face =>
    point_distance_to_plane
      (apply_inverse_to_point m.transformation pos) fc
      / fc.distance_to_centre with hg
  refine ⟨(fs.map g).foldl min (g f), ?_, ?_, ?_⟩
  · rw [List.map_cons]
    rcases foldl_min_mem (fs.map g) (g f) with h | h
    · rw [h]
      exact List.mem_cons_self _ _
    · exact List.mem_cons_of_mem _ h
  · intro s hs
    rw [List.map_cons] at hs
    rcases List.mem_cons.mp hs with h | h
    · rw [h]
      exact foldl_min_le _ _
    · exact foldl_min_le_mem _ _ _ h
  · rcases hit with h | h | h | h | h <;> subst h <;>
      simp only [get_flow_by_position] <;>
      rw [if_neg hno, if_pos hbdy, hfaces] <;> (rw [hg]; simp only [apply_ite some])

/-- Witness for `modified_shepard_boundary_ratio`: a concrete query
inside the one-boundary-cell field, discharging every hypothesis. -/
theorem modified_shepard_boundary_ratio_witness :
    ∃ r : ℚ,
      r ∈ ([⟨![1, 0, 0], ![-1, 0, 0], 1⟩] : List Face).map (fun fc =>
        point_distance_to_plane
          (apply_inverse_to_point oneBoundaryCellManager.transformation
            ![0, 0, 0]) fc / fc.distance_to_centre) ∧
      (∀ s ∈ ([⟨![1, 0, 0], ![-1, 0, 0], 1⟩] : List Face).map (fun fc =>
        point_distance_to_plane
          (apply_inverse_to_point oneBoundaryCellManager.transformation
            ![0, 0, 0]) fc / fc.distance_to_centre), r ≤ s) ∧
      get_flow_by_position oneBoundaryCellManager .MODIFIED_SHEPARD
          ![0, 0, 0] (1, 0) ([1], [0]) []
        = some (if r < 0 then make_flow_global oneBoundaryCellManager 0
            else make_flow_global oneBoundaryCellManager
              (r • oneBoundaryCellManager.vector_field_local.flow.getD 0 0)) :=
  modified_shepard_boundary_ratio oneBoundaryCellManager
    .MODIFIED_SHEPARD (Or.inl rfl) ![0, 0, 0] (1, 0) [1] [0] []
    (by norm_num) rfl ⟨![1, 0, 0], ![-1, 0, 0], 1⟩ [] rfl

/-- If at every index either the weight vanishes or the two value lists
agree, the weighted sums agree. -/
theorem zipWith_smul_sum_congr (ws : List ℚ) :
    ∀ (vs vs' : List Vec3), vs.length = vs'.length →
    (∀ (k : ℕ) (hw : k < ws.length) (hv : k < vs.length)
        (hv' : k < vs'.length),
      ws.get ⟨k, hw⟩ = 0 ∨ vs.get ⟨k, hv⟩ = vs'.get ⟨k, hv'⟩) →
    (List.zipWith (fun w u => w • u) ws vs).sum
      = (List.zipWith (fun w u => w • u) ws vs').sum := by
  induction ws with
  | nil => intro vs vs' _ _; rfl
  | cons w wt ih =>
    intro vs vs' hlen h
    cases vs with
    | nil =>
      cases vs' with
      | nil => rfl
      | cons b bt => simp at hlen
    | cons a va =>
      cases vs' with
      | nil => simp at hlen
      | cons b bt =>
        simp only [List.zipWith_cons_cons, List.sum_cons]
        have hhead := h 0 (Nat.succ_pos _) (Nat.succ_pos _) (Nat.succ_pos _)
        have htail : (List.zipWith (fun w u => w • u) wt va).sum
            = (List.zipWith (fun w u => w • u) wt bt).sum := by
          refine ih va bt (by simpa using hlen) ?_
          intro k hw hv hv'
          have hk := h (k + 1) (Nat.succ_lt_succ hw) (Nat.succ_lt_succ hv)
            (Nat.succ_lt_succ hv')
          simpa using hk
        rcases hhead with h0 | h0
        · simp only [List.get] at h0
          rw [htail, h0]
          simp
        · simp only [List.get] at h0
          rw [htail, h0]

/-- The source's `np.amax` (`foldl max`) equals any in-range entry that
is an upper bound of the whole list. -/
theorem foldl_max_eq_getD (d0 : ℚ) (ds : List ℚ) (j : ℕ)
    (hj : j < (d0 :: ds).length)
    (hmax : ∀ d ∈ d0 :: ds, d ≤ (d0 :: ds).getD j 0) :
    ds.foldl max d0 = (d0 :: ds).getD j 0 := by
  apply le_antisymm
  · rcases foldl_max_mem ds d0 with h | h
    · rw [h]
      exact hmax d0 (List.mem_cons_self _ _)
    · exact hmax _ (List.mem_cons_of_mem _ h)
  · have hmem : (d0 :: ds).getD j 0 ∈ d0 :: ds := by
      rw [List.getD_eq_getElem _ _ hj]
      exact List.getElem_mem hj
    rcases List.mem_cons.mp hmem with h | h
    · rw [h]
      exact le_foldl_max _ _
    · exact mem_le_foldl_max _ _ _ h

/-- Core of C10: the inverse-distance-weighted sum over the nine
neighbours does not change when the flow stored at the maximal-distance
neighbour's cell id is overwritten, because that slot's unnormalized
weight is `(1/r - 1/r) ^ power = 0`. -/
theorem idw_sum_ignores_farthest (flow : List Vec3) (d0 : ℚ)
    (ds : List ℚ) (ids : List ℕ) (p : ℕ) (hp : p ≠ 0) (v : Vec3) (j : ℕ)
    (hj : j < (d0 :: ds).length)
    (hmax : ∀ d ∈ d0 :: ds, d ≤ (d0 :: ds).getD j 0)
    (hdup : ∀ k, k < ids.length → ids.getD k 0 = ids.getD j 0 →
      (d0 :: ds).getD k 0 = (d0 :: ds).getD j 0) :
    (List.zipWith (fun w u => w • u)
      (((d0 :: ds).map fun d => (1 / d - 1 / ds.foldl max d0) ^ p).map
        fun w => w / ((d0 :: ds).map fun d =>
          (1 / d - 1 / ds.foldl max d0) ^ p).sum)
      (ids.map fun i => (flow.set (ids.getD j 0) v).getD i 0)).sum
    = (List.zipWith (fun w u => w • u)
      (((d0 :: ds).map fun d => (1 / d - 1 / ds.foldl max d0) ^ p).map
        fun w => w / ((d0 :: ds).map fun d =>
          (1 / d - 1 / ds.foldl max d0) ^ p).sum)
      (ids.map fun i => flow.getD i 0)).sum := by
  apply zipWith_smul_sum_congr
  · simp
  · intro k hw hv hv'
    have hkd : k < (d0 :: ds).length := by simpa using hw
    have hki : k < ids.length := by simpa using hv
    by_cases hid : ids.getD k 0 = ids.getD j 0
    · left
      have hdk : (d0 :: ds).get ⟨k, hkd⟩ = (d0 :: ds).getD j 0 := by
        rw [← hdup k hki hid, List.getD_eq_getElem _ _ hkd]
        rfl
      have hr : ds.foldl max d0 = (d0 :: ds).getD j 0 :=
        foldl_max_eq_getD d0 ds j hj hmax
      simp only [List.get_eq_getElem, List.getElem_map]
      rw [List.get_eq_getElem] at hdk
      rw [hdk, hr, sub_self, zero_pow hp, zero_div]
    · right
      have hgk : ids.get ⟨k, hki⟩ = ids.getD k 0 := by
        rw [List.getD_eq_getElem _ _ hki]
        rfl
      simp only [List.get_eq_getElem, List.getElem_map]
      rw [List.get_eq_getElem] at hgk
      rw [hgk]
      have hne2 : ids[j]?.getD 0 ≠ ids[k]?.getD 0 := by
        simpa [List.getD_eq_getElem?_getD] using Ne.symm hid
      simp [List.getD_eq_getElem?_getD, List.getElem?_set_ne hne2]

/-- C10: under every MODIFIED_SHEPARD-family policy in the non-boundary
branch, every neighbour at the maximal distance `r` of the nine receives
unnormalized weight `(1/r - 1/r) ^ power = 0`; hence, when the distances
are not all equal, the returned interpolation is invariant under
arbitrary changes to the flow stored for the farthest neighbour (at most
eight of the nine queried cells contribute).  `j` indexes a
maximal-distance neighbour, and every query slot sharing its cell id
must also carry the maximal distance (distinct slots of a kd-tree query
normally carry distinct ids). -/
theorem modified_shepard_farthest_neighbor_ignored
    (m : VectorFieldManager) (itype : Interpolation)
    (hit : itype = .MODIFIED_SHEPARD ∨ itype = .MODIFIED_SHEPARD_LINEAR ∨
      itype = .MODIFIED_SHEPARD_SQUARED ∨ itype = .MODIFIED_SHEPARD_CUBED ∨
      itype = .MODIFIED_SHEPARD_FOURTH)
    (pos : Vec3) (query1 : ℚ × ℕ) (dists : List ℚ) (ids : List ℕ)
    (cdists : List ℚ) (j : ℕ) (v : Vec3)
    (hj : j < dists.length)
    (hmax : ∀ d ∈ dists, d ≤ dists.getD j 0)
    (hdup : ∀ k, k < ids.length → ids.getD k 0 = ids.getD j 0 →
      dists.getD k 0 = dists.getD j 0)
    (hnear : 1 / 10 ^ 10 < dists.getD 0 0)
    (hbdy : is_at_boundary m (ids.getD 0 0) = false)
    (hne : ∃ a ∈ dists, ∃ b ∈ dists, a ≠ b) :
    get_flow_by_position
      { m with vector_field_local :=
        { m.vector_field_local with
          flow := m.vector_field_local.flow.set (ids.getD j 0) v } }
      itype pos query1 (dists, ids) cdists
      = get_flow_by_position m itype pos query1 (dists, ids) cdists := by
  rcases dists with _ | ⟨d0, ds⟩
  · exact absurd hj (by simp)
  have hno : ¬ (|(d0 :: ds).getD 0 0| ≤ 1 / 10 ^ 10) := by
    rw [not_le]
    exact lt_of_lt_of_le hnear (le_abs_self _)
  have hnotb : ¬ (is_at_boundary m (ids.getD 0 0) = true) := by
    rw [hbdy]
    exact Bool.false_ne_true
  have hnotb' : ¬ (is_at_boundary
      { m with vector_field_local :=
        { m.vector_field_local with
          flow := m.vector_field_local.flow.set (ids.getD j 0) v } }
      (ids.getD 0 0) = true) := hnotb
  rcases hit with h | h | h | h | h <;> subst h <;>
    simp only [get_flow_by_position] <;>
    rw [if_neg hno, if_neg hnotb', if_neg hno, if_neg hnotb]
  · exact congrArg some (congrArg (make_flow_global m)
      (idw_sum_ignores_farthest m.vector_field_local.flow d0 ds ids 1
        one_ne_zero v j hj hmax hdup))
  · exact congrArg some (congrArg (make_flow_global m)
      (idw_sum_ignores_farthest m.vector_field_local.flow d0 ds ids 1
        one_ne_zero v j hj hmax hdup))
  · exact congrArg some (congrArg (make_flow_global m)
      (idw_sum_ignores_farthest m.vector_field_local.flow d0 ds ids 2
        (by norm_num) v j hj hmax hdup))
  · exact congrArg some (congrArg (make_flow_global m)
      (idw_sum_ignores_farthest m.vector_field_local.flow d0 ds ids 3
        (by norm_num) v j hj hmax hdup))
  · exact congrArg some (congrArg (make_flow_global m)
      (idw_sum_ignores_farthest m.vector_field_local.flow d0 ds ids 4
        (by norm_num) v j hj hmax hdup))

/-- Witness for `modified_shepard_farthest_neighbor_ignored` at a
concrete query, discharging every hypothesis. -/
theorem modified_shepard_farthest_neighbor_ignored_witness :
    get_flow_by_position
      { oneCellManager with vector_field_local :=
        { oneCellManager.vector_field_local with
          flow := oneCellManager.vector_field_local.flow.set
            (([0, 5] : List ℕ).getD 1 0) ![7, 7, 7] } }
      .MODIFIED_SHEPARD ![0, 0, 0] (1, 0) ([1, 2], [0, 5]) []
      = get_flow_by_position oneCellManager .MODIFIED_SHEPARD ![0, 0, 0]
        (1, 0) ([1, 2], [0, 5]) [] :=
  modified_shepard_farthest_neighbor_ignored oneCellManager
    .MODIFIED_SHEPARD (Or.inl rfl) ![0, 0, 0] (1, 0) [1, 2] [0, 5] []
    1 ![7, 7, 7] (by norm_num)
    (by intro d hd; fin_cases hd <;> norm_num)
    (by
      intro k hk hik
      match k, hk with
      | 0, _ => exact absurd hik (by decide)
      | 1, _ => rfl)
    (by norm_num) rfl
    ⟨1, by norm_num, 2, by norm_num, by norm_num⟩

/-- The stored step-size update written by the source (which selects the
exponent with `_error >= threshold`) agrees extensionally with the
specification's wording (`delta_time_opt_spec`, which selects it by
"still over the threshold"): at `error = threshold` the two exponent
choices differ, but there `threshold / error = 1` and `1 ^ x = 1`
either way. -/
theorem dt_opt_code_eq_spec (P : AdaptiveParams) (dtv e : ℝ) :
    (if e = 0 then none
     else some (P.safety_factor * dtv * (P.max_error_threshold / e) ^
       (if P.max_error_threshold ≤ e then 1 / ((P.rkf_order : ℝ) + 1)
        else 1 / (P.rkf_order : ℝ)))) = delta_time_opt_spec P dtv e := by
  unfold delta_time_opt_spec
  by_cases h0 : e = 0
  · rw [if_pos h0, if_pos h0]
  · rw [if_neg h0, if_neg h0]
    by_cases hlt : P.max_error_threshold < e
    · rw [if_pos (le_of_lt hlt), if_pos hlt]
    · by_cases hle : P.max_error_threshold ≤ e
      · have he : e = P.max_error_threshold := le_antisymm (not_lt.mp hlt) hle
        have hth : P.max_error_threshold ≠ 0 := by
          rw [← he]
          exact h0
        rw [if_pos hle, if_neg hlt, he, div_self hth, Real.one_rpow,
          Real.one_rpow]
      · rw [if_neg hle, if_neg hlt]

/-- Every attempt recorded by the correction loop satisfies the
step-size and step-size-update formulas. -/
theorem correctionLoop_trace_spec (P : AdaptiveParams) {α : Type}
    (predict_at : ℝ → α × ℝ) (elapsed : ℝ) :
    ∀ (fuel : ℕ) (s : CorrState α),
      (∀ a ∈ s.trace,
        a.dtUsed = pyMin3 a.dtOptBefore P.base_delta_time
          |P.base_delta_time - elapsed| ∧
        a.dtOptAfter = delta_time_opt_spec P a.dtUsed a.error) →
      ∀ a ∈ (correctionLoop P predict_at elapsed fuel s).1.trace,
        a.dtUsed = pyMin3 a.dtOptBefore P.base_delta_time
          |P.base_delta_time - elapsed| ∧
        a.dtOptAfter = delta_time_opt_spec P a.dtUsed a.error := by
  intro fuel
  induction fuel with
  | zero =>
    intro s hs
    exact hs
  | succ n ih =>
    intro s hs
    rw [correctionLoop]
    by_cases hg : corrGuard P s
    · rw [if_pos hg]
      apply ih
      simp only [correctionStep]
      intro a ha
      rcases List.mem_append.mp ha with h | h
      · exact hs a h
      · obtain rfl := List.mem_singleton.mp h
        exact ⟨rfl, dt_opt_code_eq_spec P _ _⟩
    · rw [if_neg hg]
      exact hs

/-- C2: every attempted sub-step in `_update_molecule` uses step size
`min(molecule.delta_time_opt, base_delta_time, remaining)` where
`remaining = base_delta_time - elapsed` is the time left to the base
boundary (the source computes `abs(base_delta_time - elapsed)`, equal
under `0 ≤ elapsed ≤ base_delta_time`); after each attempt with scalar
error `e` the molecule's `delta_time_opt` is set to `safety_factor * dt
* (threshold / e) ^ x` with `x = 1/(order+1)` while still over the
threshold and `x = 1/order` once accepted (`delta_time_opt_spec`;
extensionally equal to the source's `>=`-based selection), and to
infinity (`none`) when `e` is exactly zero; `RKF45_order = 5`. -/
theorem adaptive_attempt_formulas (P : AdaptiveParams) {α : Type}
    (predict_at : ℝ → α × ℝ) (elapsed : ℝ) (pos0 : α) (dtOpt0 : Option ℝ)
    (h0 : 0 ≤ elapsed) (h1 : elapsed ≤ P.base_delta_time) :
    (∀ a ∈ (update_molecule P predict_at elapsed pos0 dtOpt0).trace,
      a.dtUsed = pyMin3 a.dtOptBefore P.base_delta_time
        (P.base_delta_time - elapsed) ∧
      a.dtOptAfter = delta_time_opt_spec P a.dtUsed a.error) ∧
    RKF45_order = 5 := by
  have habs : |P.base_delta_time - elapsed| = P.base_delta_time - elapsed :=
    abs_of_nonneg (by linarith)
  refine ⟨?_, rfl⟩
  intro a ha
  have hloop := correctionLoop_trace_spec P predict_at elapsed
    (P.corrections_limit + 3)
    { errState := none, num_corrections := -1, dtState := none,
      delta_time_opt := dtOpt0, pos := pos0, trace := [] }
    (by intro a ha; cases ha) a ha
  rw [habs] at hloop
  exact hloop

/-- The correction counter never exceeds `corrections_limit + 1`: the
loop body only runs while the counter is at most the limit. -/
theorem correctionLoop_nc_le (P : AdaptiveParams) {α : Type}
    (predict_at : ℝ → α × ℝ) (elapsed : ℝ) :
    ∀ (fuel : ℕ) (s : CorrState α),
      s.num_corrections ≤ (P.corrections_limit : ℤ) + 1 →
      (correctionLoop P predict_at elapsed fuel s).1.num_corrections
        ≤ (P.corrections_limit : ℤ) + 1 := by
  intro fuel
  induction fuel with
  | zero => intro s hs; exact hs
  | succ n ih =>
    intro s hs
    rw [correctionLoop]
    by_cases hg : corrGuard P s
    · rw [if_pos hg]
      apply ih
      have h2 := hg.2
      simp only [correctionStep]
      omega
    · rw [if_neg hg]
      exact hs

/-- With fuel `corrections_limit + 3` the correction loop always exits
through its guard (the flag is `true`): the counter rises by one per
iteration from `-1` and the guard fails once it passes the limit. -/
theorem correctionLoop_completes (P : AdaptiveParams) {α : Type}
    (predict_at : ℝ → α × ℝ) (elapsed : ℝ) :
    ∀ (fuel : ℕ) (s : CorrState α),
      s.num_corrections ≤ (P.corrections_limit : ℤ) + 1 →
      (P.corrections_limit : ℤ) + 2 - s.num_corrections ≤ (fuel : ℤ) →
      (correctionLoop P predict_at elapsed fuel s).2 = true := by
  intro fuel
  induction fuel with
  | zero =>
    intro s h1 h2
    exfalso
    omega
  | succ n ih =>
    intro s h1 h2
    rw [correctionLoop]
    by_cases hg : corrGuard P s
    · rw [if_pos hg]
      have hnc := hg.2
      refine ih _ ?_ ?_
      · simp only [correctionStep]
        omega
      · simp only [correctionStep]
        omega
    · rw [if_neg hg]

/-- Loop invariant: the position, last step size, and stored
`delta_time_opt` always come from the last recorded attempt (or the
loop has not run yet and the trace is empty). -/
theorem correctionLoop_last_attempt (P : AdaptiveParams) {α : Type}
    (predict_at : ℝ → α × ℝ) (elapsed : ℝ) :
    ∀ (fuel : ℕ) (s : CorrState α),
      (s.trace = [] ∨ ∃ a, s.trace.getLast? = some a ∧ s.pos = a.pos ∧
        s.dtState = some a.dtUsed ∧ s.delta_time_opt = a.dtOptAfter) →
      ((correctionLoop P predict_at elapsed fuel s).1.trace = [] ∨
        ∃ a, (correctionLoop P predict_at elapsed fuel s).1.trace.getLast?
            = some a ∧
          (correctionLoop P predict_at elapsed fuel s).1.pos = a.pos ∧
          (correctionLoop P predict_at elapsed fuel s).1.dtState
            = some a.dtUsed ∧
          (correctionLoop P predict_at elapsed fuel s).1.delta_time_opt
            = a.dtOptAfter) := by
  intro fuel
  induction fuel with
  | zero => intro s hs; exact hs
  | succ n ih =>
    intro s hs
    rw [correctionLoop]
    by_cases hg : corrGuard P s
    · rw [if_pos hg]
      apply ih
      right
      simp only [correctionStep]
      exact ⟨_, List.getLast?_concat _, rfl, rfl, rfl⟩
    · rw [if_neg hg]
      exact hs

/-- The loop only ever appends to the trace, so a nonempty trace stays
nonempty. -/
theorem correctionLoop_trace_ne (P : AdaptiveParams) {α : Type}
    (predict_at : ℝ → α × ℝ) (elapsed : ℝ) :
    ∀ (fuel : ℕ) (s : CorrState α), s.trace ≠ [] →
      (correctionLoop P predict_at elapsed fuel s).1.trace ≠ [] := by
  intro fuel
  induction fuel with
  | zero => intro s hs; exact hs
  | succ n ih =>
    intro s hs
    rw [correctionLoop]
    by_cases hg : corrGuard P s
    · rw [if_pos hg]
      apply ih
      simp only [correctionStep]
      simp
    · rw [if_neg hg]
      exact hs

/-- Witness for `adaptive_attempt_formulas` at concrete parameters,
discharging both hypotheses. -/
theorem adaptive_attempt_formulas_witness :
    (∀ a ∈ (update_molecule ⟨1, 1, 1, 0, 5⟩
        (fun _ => ((), 0)) 0 () none).trace,
      a.dtUsed = pyMin3 a.dtOptBefore (1 : ℝ) ((1 : ℝ) - 0) ∧
      a.dtOptAfter
        = delta_time_opt_spec ⟨1, 1, 1, 0, 5⟩ a.dtUsed a.error) ∧
    RKF45_order = 5 :=
  adaptive_attempt_formulas ⟨1, 1, 1, 0, 5⟩ (fun _ => ((), 0)) 0 () none
    (le_refl 0) (by norm_num)

/-- C6 (amended): one call of `_update_molecule` performs at most
`corrections_limit + 2` attempts — the correction counter ends at most
one past the limit — and always exits through its guard (no exception);
the committed position, the reported step size and the stored
`delta_time_opt` all come from the last recorded attempt (the molecule
is updated exactly once, whatever way the loop exits); the warning is
logged exactly when the counter exceeded the limit. -/
theorem adaptive_corrections_commit_last_attempt (P : AdaptiveParams)
    {α : Type} (predict_at : ℝ → α × ℝ) (elapsed : ℝ) (pos0 : α)
    (dtOpt0 : Option ℝ) :
    (update_molecule P predict_at elapsed pos0 dtOpt0).num_corrections
      ≤ (P.corrections_limit : ℤ) + 1 ∧
    (update_molecule P predict_at elapsed pos0 dtOpt0).completed = true ∧
    (∃ a, (update_molecule P predict_at elapsed pos0 dtOpt0).trace.getLast?
        = some a ∧
      (update_molecule P predict_at elapsed pos0 dtOpt0).committedPos
        = a.pos ∧
      (update_molecule P predict_at elapsed pos0 dtOpt0).dtUsed
        = some a.dtUsed ∧
      (update_molecule P predict_at elapsed pos0 dtOpt0).delta_time_opt
        = a.dtOptAfter) ∧
    ((update_molecule P predict_at elapsed pos0 dtOpt0).warned = true ↔
      (P.corrections_limit : ℤ)
        < (update_molecule P predict_at elapsed pos0 dtOpt0).num_corrections)
    := by
  set init : CorrState α :=
    { errState := none, num_corrections := -1, dtState := none,
      delta_time_opt := dtOpt0, pos := pos0, trace := [] } with hinit
  have hfirst : correctionLoop P predict_at elapsed
      (P.corrections_limit + 3) init
      = correctionLoop P predict_at elapsed (P.corrections_limit + 2)
        (correctionStep P predict_at elapsed init) := by
    show (if corrGuard P init then _ else _) = _
    rw [if_pos ⟨trivial, show (-1 : ℤ) ≤ (P.corrections_limit : ℤ) by omega⟩]
  refine ⟨?_, ?_, ?_, ?_⟩
  · exact correctionLoop_nc_le P predict_at elapsed _ init
      (show (-1 : ℤ) ≤ (P.corrections_limit : ℤ) + 1 by omega)
  · exact correctionLoop_completes P predict_at elapsed _ init
      (show (-1 : ℤ) ≤ (P.corrections_limit : ℤ) + 1 by omega)
      (show (P.corrections_limit : ℤ) + 2 - (-1)
          ≤ ((P.corrections_limit + 3 : ℕ) : ℤ) by push_cast; omega)
  · have hinv := correctionLoop_last_attempt P predict_at elapsed
      (P.corrections_limit + 2) (correctionStep P predict_at elapsed init)
      (Or.inr (by
        simp only [correctionStep]
        exact ⟨_, List.getLast?_concat _, rfl, rfl, rfl⟩))
    have hne := correctionLoop_trace_ne P predict_at elapsed
      (P.corrections_limit + 2) (correctionStep P predict_at elapsed init)
      (by simp only [correctionStep]; simp)
    rcases hinv with h | h
    · exact absurd h hne
    · obtain ⟨a, ha1, ha2, ha3, ha4⟩ := h
      refine ⟨a, ?_, ?_, ?_, ?_⟩
      · show (correctionLoop P predict_at elapsed
            (P.corrections_limit + 3) init).1.trace.getLast? = some a
        rw [hfirst]
        exact ha1
      · show (correctionLoop P predict_at elapsed
            (P.corrections_limit + 3) init).1.pos = a.pos
        rw [hfirst]
        exact ha2
      · show (correctionLoop P predict_at elapsed
            (P.corrections_limit + 3) init).1.dtState = some a.dtUsed
        rw [hfirst]
        exact ha3
      · show (correctionLoop P predict_at elapsed
            (P.corrections_limit + 3) init).1.delta_time_opt = a.dtOptAfter
        rw [hfirst]
        exact ha4
  · exact ⟨fun h => of_decide_eq_true h, fun h => decide_eq_true h⟩

/-- C6 counterexample to the claim as stated: with
`adaptive_time_corrections_limit = 0` and a predictor whose error `2`
always exceeds the threshold `1`, `_update_molecule` performs two
attempts, so the number of correction retries (`_num_corrections`) ends
at `1`, exceeding the limit `0`. -/
theorem adaptive_corrections_exceed_limit_counterexample :
    (update_molecule ⟨1, 1, 1, 0, 5⟩ (fun _ => ((), 2)) 0 ()
        none).num_corrections = 1 ∧
    ¬ ((update_molecule ⟨1, 1, 1, 0, 5⟩ (fun _ => ((), 2)) 0 ()
        none).num_corrections
      ≤ (((⟨1, 1, 1, 0, 5⟩ : AdaptiveParams).corrections_limit : ℕ) : ℤ))
    := by
  have h : (update_molecule ⟨1, 1, 1, 0, 5⟩ (fun _ => ((), 2)) 0 ()
      none).num_corrections = 1 := by
    show (correctionLoop ⟨1, 1, 1, 0, 5⟩ (fun _ => ((), 2)) 0 3
      { errState := none, num_corrections := -1, dtState := none,
        delta_time_opt := none, pos := (), trace := [] }).1.num_corrections
      = 1
    norm_num [correctionLoop, correctionStep, corrGuard, errAbove, pyMin3]
  exact ⟨h, by rw [h]; norm_num⟩

/-- `min(a, b, c)` is at most its last argument. -/
theorem pyMin3_le_right (a : Option ℝ) (b c : ℝ) : pyMin3 a b c ≤ c := by
  cases a with
  | none => exact min_le_right b c
  | some x => exact le_trans (min_le_right x _) (min_le_right b c)

/-- Along the correction loop, the last tried step size never exceeds
the remaining time term `abs (base_delta_time - elapsed)` (with the
`getD 0` default covering the not-yet-tried state). -/
theorem correctionLoop_dt_le (P : AdaptiveParams) {α : Type}
    (predict_at : ℝ → α × ℝ) (elapsed : ℝ) :
    ∀ (fuel : ℕ) (s : CorrState α),
      s.dtState.getD 0 ≤ |P.base_delta_time - elapsed| →
      (correctionLoop P predict_at elapsed fuel s).1.dtState.getD 0
        ≤ |P.base_delta_time - elapsed| := by
  intro fuel
  induction fuel with
  | zero => intro s hs; exact hs
  | succ n ih =>
    intro s hs
    rw [correctionLoop]
    by_cases hg : corrGuard P s
    · rw [if_pos hg]
      apply ih
      simp only [correctionStep, Option.getD_some]
      exact pyMin3_le_right _ _ _
    · rw [if_neg hg]
      exact hs

/-- The step size reported by `_update_molecule` never exceeds the
remaining time to the base boundary. -/
theorem update_molecule_dt_le (P : AdaptiveParams) {α : Type}
    (predict_at : ℝ → α × ℝ) (elapsed : ℝ) (pos0 : α)
    (dtOpt0 : Option ℝ) :
    (update_molecule P predict_at elapsed pos0 dtOpt0).dtUsed.getD 0
      ≤ |P.base_delta_time - elapsed| :=
  correctionLoop_dt_le P predict_at elapsed (P.corrections_limit + 3)
    { errState := none, num_corrections := -1, dtState := none,
      delta_time_opt := dtOpt0, pos := pos0, trace := [] }
    (by simpa using abs_nonneg (P.base_delta_time - elapsed))

/-- Invariants of the sub-stepping loop: the committed step sizes sum to
the advanced sub-time, the sub-time never overshoots the base boundary,
and when the loop reports completion its guard really failed. -/
theorem advanceLoop_inv (P : AdaptiveParams) {α : Type}
    (pred : α → ℝ → ℝ → α × ℝ) (sim_time : ℝ) :
    ∀ (fuel : ℕ) (s : AdvState α),
      s.committed.sum = s.sub_sim_time - sim_time →
      s.sub_sim_time ≤ sim_time + P.base_delta_time →
      (advanceLoop P pred sim_time fuel s).1.committed.sum
          = (advanceLoop P pred sim_time fuel s).1.sub_sim_time - sim_time ∧
        (advanceLoop P pred sim_time fuel s).1.sub_sim_time
          ≤ sim_time + P.base_delta_time ∧
        ((advanceLoop P pred sim_time fuel s).2 = true →
          ¬ advGuard sim_time P.base_delta_time
            (advanceLoop P pred sim_time fuel s).1.sub_sim_time) := by
  intro fuel
  induction fuel with
  | zero =>
    intro s h1 h2
    exact ⟨h1, h2, by intro hfalse; simp [advanceLoop] at hfalse⟩
  | succ n ih =>
    intro s h1 h2
    rw [advanceLoop]
    by_cases hg : advGuard sim_time P.base_delta_time s.sub_sim_time
    · rw [if_pos hg]
      have hdt : (update_molecule P (pred s.pos s.sub_sim_time)
          (s.sub_sim_time - sim_time) s.pos s.delta_time_opt).dtUsed.getD 0
          ≤ sim_time + P.base_delta_time - s.sub_sim_time := by
        have hb := update_molecule_dt_le P (pred s.pos s.sub_sim_time)
          (s.sub_sim_time - sim_time) s.pos s.delta_time_opt
        rwa [show |P.base_delta_time - (s.sub_sim_time - sim_time)|
            = sim_time + P.base_delta_time - s.sub_sim_time from by
          rw [abs_of_nonneg (by linarith)]
          ring] at hb
      apply ih
      · simp only [List.sum_append, List.sum_cons, List.sum_nil]
        rw [h1]
        ring
      · simp only []
        linarith
    · rw [if_neg hg]
      exact ⟨h1, h2, fun _ => hg⟩

/-- C3: in adaptive mode, for one base step, the sub-step sizes
committed for a molecule never overshoot the base boundary (their sum is
at most `base_delta_time`); when the loop terminates through its guard,
their sum equals `base_delta_time` within the `np.isclose` tolerance
(`atol = 1e-15`, `rtol = 1e-10` against the boundary time); and the loop
returns immediately once the accumulated sub-time has reached the
boundary. -/
theorem adaptive_substeps_sum_to_base (P : AdaptiveParams) {α : Type}
    (pred : α → ℝ → ℝ → α × ℝ) (sim_time : ℝ) (fuel : ℕ) (pos0 : α)
    (dtOpt0 : Option ℝ) (hbase : 0 ≤ P.base_delta_time) :
    (advance_molecule_to_next_base_step P pred sim_time fuel pos0
        dtOpt0).1.committed.sum ≤ P.base_delta_time ∧
    ((advance_molecule_to_next_base_step P pred sim_time fuel pos0
        dtOpt0).2 = true →
      |(advance_molecule_to_next_base_step P pred sim_time fuel pos0
          dtOpt0).1.committed.sum - P.base_delta_time|
        ≤ 1 / 10 ^ 15 + 1 / 10 ^ 10 * |sim_time + P.base_delta_time|) ∧
    (∀ (fuel2 : ℕ) (s : AdvState α),
      sim_time + P.base_delta_time ≤ s.sub_sim_time →
      advanceLoop P pred sim_time (fuel2 + 1) s = (s, true)) := by
  simp only [advance_molecule_to_next_base_step]
  set R := advanceLoop P pred sim_time fuel
    { sub_sim_time := sim_time, delta_time_opt := dtOpt0, pos := pos0,
      committed := [], num_steps := 0 } with hR
  have hinv := advanceLoop_inv P pred sim_time fuel
    { sub_sim_time := sim_time, delta_time_opt := dtOpt0, pos := pos0,
      committed := [], num_steps := 0 }
    (by simp) (by simpa using hbase)
  rw [← hR] at hinv
  obtain ⟨hsum, hle, hdone⟩ := hinv
  refine ⟨by rw [hsum]; linarith, ?_, ?_⟩
  · intro hfin
    have hguard := hdone hfin
    rw [advGuard, not_and_or, not_lt, not_not] at hguard
    rw [hsum]
    have key : |R.1.sub_sim_time - sim_time - P.base_delta_time|
        = |R.1.sub_sim_time - (sim_time + P.base_delta_time)| :=
      congrArg abs (by ring)
    rcases hguard with hge | hclose
    · have heq : R.1.sub_sim_time = sim_time + P.base_delta_time :=
        le_antisymm hle hge
      rw [key, heq, sub_self, abs_zero]
      positivity
    · rw [iscloseProp] at hclose
      rw [key]
      exact hclose
  · intro fuel2 s hle2
    rw [advanceLoop, if_neg]
    intro hg
    exact absurd hg.1 (not_lt.mpr hle2)

/-- Witness for `adaptive_substeps_sum_to_base` at concrete
parameters. -/
theorem adaptive_substeps_sum_to_base_witness :
    (advance_molecule_to_next_base_step ⟨1, 1, 1, 0, 5⟩
        (fun _ _ _ => ((), 0)) 0 2 () none).1.committed.sum ≤ 1 ∧
    ((advance_molecule_to_next_base_step ⟨1, 1, 1, 0, 5⟩
        (fun _ _ _ => ((), 0)) 0 2 () none).2 = true →
      |(advance_molecule_to_next_base_step ⟨1, 1, 1, 0, 5⟩
          (fun _ _ _ => ((), 0)) 0 2 () none).1.committed.sum - 1|
        ≤ 1 / 10 ^ 15 + 1 / 10 ^ 10 * |(0 : ℝ) + 1|) ∧
    (∀ (fuel2 : ℕ) (s : AdvState Unit),
      (0 : ℝ) + 1 ≤ s.sub_sim_time →
      advanceLoop ⟨1, 1, 1, 0, 5⟩ (fun _ _ _ => ((), 0)) 0 (fuel2 + 1) s
        = (s, true)) :=
  adaptive_substeps_sum_to_base ⟨1, 1, 1, 0, 5⟩ (fun _ _ _ => ((), 0))
    0 2 () none (by norm_num)
